import Mathlib

/-!
# Active region detector (strelka, `starling_common/ActiveRegionDetector.hh`)

A shallow embedding of the `ActiveRegionDetector` class.

* What the header defines is translated from the header: the class constants, the
  constructor and `getActiveRegionId`.
* The header only declares `updateEndPosition`, `clear`, `clearPosToActiveRegionMap`,
  `clearPolySites`, `clearReadBuffer`, and uses the types `RangeMap`, `RangeSet`,
  `ActiveRegion`, `ActiveRegionId`, `AlignmentScores` and `GlobalAligner` without defining
  them.  Those parts are modelled from the specification; each such definition says so in
  its doc comment.
-/

namespace Strelka

/-! ## Types the header uses -/

/-! Reference positions (`pos_t` of `blt_util/blt_types.hh`, a signed integer coordinate)
are embedded as `Int`.

Modelled from the spec: the typedef `ActiveRegionId` (of `ActiveRegion.hh`, not part of the
header).  The spec calls it a monotonically assigned integer id whose first value is 0; it
is embedded as `Nat`, without a bound on the ids in use, and the cast in
`(ActiveRegionId)(-1)` is the cast to an unsigned integer of `ActiveRegionIdBits` bits. -/

/-- Modelled from the spec: the bit width of the typedef `ActiveRegionId`, taken as
the width of `unsigned`. -/
def ActiveRegionIdBits : Nat := 32

/-- The C cast `(ActiveRegionId)(x)` of a signed value to the unsigned id type. -/
def toActiveRegionId (x : Int) : Nat := (x % (2 : Int) ^ ActiveRegionIdBits).toNat

/-! ## Class constants (header lines 45-59) -/

/-- Maximum buffer size in bases. -/
def MaxBufferSize : Nat := 1000

/-- Max distance between two variants to be placed in the same active region. -/
def MaxDistanceBetweenTwoVariants : Nat := 13

/-- Min number of variants to form an active region. -/
def MinNumVariantsPerRegion : Nat := 2

/-- Alignment score of a match. -/
def ScoreMatch : Int := 1

/-- Alignment score of a mismatch. -/
def ScoreMismatch : Int := -4

/-- Alignment score of a gap open. -/
def ScoreOpen : Int := -5

/-- Alignment score of a gap extension. -/
def ScoreExtend : Int := -1

/-- Alignment score of running off the edge. -/
def ScoreOffEdge : Int := -100

/-! ## Collaborator types -/

/-- Modelled from the spec: `AlignmentScores<int>` (used, not defined, by the header).  The
record keeps the eight arguments of the constructor call of header line 77 in call order;
the first five carry the names the spec gives them (match, mismatch, gap open, gap extend,
off-edge), the last three are kept by position. -/
structure AlignmentScores where
  matchScore : Int
  mismatchScore : Int
  openScore : Int
  extendScore : Int
  offEdgeScore : Int
  arg6 : Int
  arg7 : Bool
  arg8 : Bool
  deriving DecidableEq, Repr

/-- Modelled from the spec: `GlobalAligner<int>` (used, not defined, by the header); an
aligner is determined by the scores it is constructed with. -/
structure GlobalAligner where
  scores : AlignmentScores
  deriving DecidableEq, Repr

/-- Modelled from the spec: `ActiveRegion` (used, not defined, by the header): an id and a
closed interval `[startPos, endPos]` of reference positions. -/
structure ActiveRegion where
  id : Nat
  startPos : Int
  endPos : Int
  deriving DecidableEq, Repr

/-- Number of reference positions of a region. -/
def ActiveRegion.length (r : ActiveRegion) : Nat := (r.endPos + 1 - r.startPos).toNat

/-- A region covers `p` when `p` lies in its closed interval. -/
def ActiveRegion.covers (r : ActiveRegion) (p : Int) : Prop := r.startPos ≤ p ∧ p ≤ r.endPos

instance (r : ActiveRegion) (p : Int) : Decidable (r.covers p) := by
  unfold ActiveRegion.covers; infer_instance

/-- Modelled from the spec: `RangeMap<pos_t, V>` (used, not defined, by the header): the
sparse mapping from position to value of the Position Index.  An entry is present or
absent; removed entries are gone, not marked. -/
structure RangeMap (α : Type) where
  entries : List (Int × α)
  deriving DecidableEq, Repr

namespace RangeMap

variable {α : Type}

/-- The default-constructed (empty) map. -/
def empty : RangeMap α := ⟨[]⟩

/-- The value stored for `k`, if any. -/
def find? (m : RangeMap α) (k : Int) : Option α := m.entries.lookup k

/-- Whether an entry exists for `k`. -/
def isKeyPresent (m : RangeMap α) (k : Int) : Bool := (m.find? k).isSome

/-- The stored value for `k` when an entry exists, else the given default. -/
def getConstRefDefault (m : RangeMap α) (k : Int) (defaultVal : α) : α :=
  match m.find? k with
  | some v => v
  | none => defaultVal

/-- Store `v` for `k`, replacing an entry already there. -/
def set (m : RangeMap α) (k : Int) (v : α) : RangeMap α :=
  ⟨(k, v) :: m.entries.filter (fun e => decide (e.1 ≠ k))⟩

/-- Store `v` for the `n` positions `start, start + 1, ..., start + n - 1`. -/
def setRange (m : RangeMap α) : Int → Nat → α → RangeMap α
  | _, 0, _ => m
  | start, n + 1, v => (m.setRange start n v).set (start + n) v

/-- Remove every entry whose key is strictly before `pos`. -/
def eraseBefore (m : RangeMap α) (pos : Int) : RangeMap α :=
  ⟨m.entries.filter (fun e => decide (pos ≤ e.1))⟩

/-- The positions that have an entry. -/
def keys (m : RangeMap α) : Finset Int := (m.entries.map Prod.fst).toFinset

end RangeMap

/-- Modelled from the spec: `RangeSet` (used, not defined, by the header): one sparse set
of positions per sample. -/
structure RangeSet where
  sets : List (List Int)
  deriving DecidableEq, Repr

/-- The set constructed for `sampleCount` samples: one empty set per sample. -/
def RangeSet.init (sampleCount : Nat) : RangeSet := ⟨List.replicate sampleCount []⟩

/-- Remove every position strictly before `pos` from each sample's set. -/
def RangeSet.eraseBefore (r : RangeSet) (pos : Int) : RangeSet :=
  ⟨r.sets.map (fun l => l.filter (fun p => decide (pos ≤ p)))⟩

/-- Fatal outcomes (spec section 7): a non-monotonic position advance, and a region whose
span exceeds the maximum buffer size. -/
inductive FatalError where
  | nonMonotonicAdvance
  | regionSpanExceedsBuffer
  deriving DecidableEq, Repr

/-! ## The detector -/

/-- The members of `ActiveRegionDetector` (header lines 136-159).  The collaborators held by
reference (`_ref`, `_indelBuffer`) and the read buffer (the spec's external Evidence Source)
are not part of the embedded state: the evidence is passed to `updateEndPosition` as a
function of the position.

The last two fields are modelled from the spec, which speaks of "the last-seen position"
and "the next region id" (the first id being 0); the header declares no member for
either. -/
structure ActiveRegionDetector where
  maxIndelSize : Nat
  sampleCount : Nat
  isBeginning : Bool
  activeRegionStartPos : Int
  anchorPosFollowingPrevVariant : Int
  prevAnchorPos : Int
  prevVariantPos : Int
  numVariants : Nat
  activeRegions : List ActiveRegion
  polySites : RangeSet
  aligner : GlobalAligner
  posToActiveRegionIdMap : RangeMap Nat
  lastSeenPos : Option Int
  nextActiveRegionId : Nat
  deriving DecidableEq, Repr

namespace ActiveRegionDetector

/-- The state the constructor establishes (header lines 66-85).  Its body assigns the six
tracker members; the member initialisers store `maxIndelSize` and `sampleCount`, build
`_polySites(sampleCount)` and build the aligner from the score constants; the remaining
members are default constructed (no region, empty index).  The two modelled fields start
at "no position seen" and id 0. -/
def init (maxIndelSize sampleCount : Nat) : ActiveRegionDetector where
  maxIndelSize := maxIndelSize
  sampleCount := sampleCount
  polySites := RangeSet.init sampleCount
  aligner := ⟨⟨ScoreMatch, ScoreMismatch, ScoreOpen, ScoreExtend, ScoreOffEdge, ScoreOpen,
    true, true⟩⟩
  isBeginning := true
  activeRegionStartPos := -1
  anchorPosFollowingPrevVariant := 1
  prevAnchorPos := -1
  prevVariantPos := -1
  numVariants := 0
  activeRegions := []
  posToActiveRegionIdMap := RangeMap.empty
  lastSeenPos := none
  nextActiveRegionId := 0

/-- The constructor as a fallible operation.  Neither its body nor its member initialisers
contain a check or a statement that can fail, and `maxIndelSize` is only stored: the result
is always `ok`. -/
def construct (maxIndelSize sampleCount : Nat) : Except FatalError ActiveRegionDetector :=
  .ok (init maxIndelSize sampleCount)

/-- The "none" sentinel `(ActiveRegionId)(-1)`. -/
def noActiveRegionId : Nat := toActiveRegionId (-1)

/-- The member `getActiveRegionId` (header lines 94-97), a `const` member: a function of
the state. -/
def getActiveRegionId (s : ActiveRegionDetector) (pos : Int) : Nat :=
  s.posToActiveRegionIdMap.getConstRefDefault pos (toActiveRegionId (-1))

/-! ### Region Boundary Tracker (spec section 4.1)

The header declares `updateEndPosition`, `setPosToActiveRegionIdMap` and
`processActiveRegion` without a body.  The definitions below follow section 4.1 of the
specification sentence by sentence.  These readings are fixed here:

* "prevVariantPos is unset" and "no anchor yet" are both read as `isBeginning`, which the
  spec defines as "no variant seen yet";
* a run is open exactly when `numVariants` is positive ("Reset run state: regionStartPos =
  none, variantCount = 0"); a run is closed by the decision rule, that is when a
  confirmed variant beyond the distance threshold is processed, or at the end of input;
* `anchorPosFollowingPrevVariant` is, by the spec's definition of that member, "the first
  position after the last confirmed variant": a confirmed variant at `p` leaves it at
  `p + 1`;
* `updateEndPosition(pos)` processes the positions after the last-seen one, each once;
* the edge case of the very first call needs no rule of its own: while `isBeginning`
  holds, the first confirmed variant starts its run at its own position.

The trailing soft-clip/indel context of a closed region, whose rule the spec leaves open
(its section 9), is not added: a region is the span `[regionStartPos, prevVariantPos]`.
The Region Resolver (`processActiveRegion`), which assigns haplotype ids, is outside the
embedding. -/

/-- Modelled from the spec: `setPosToActiveRegionIdMap` (declared only): "populate the
Position Index for every position in the region" with the region's id. -/
def setPosToActiveRegionIdMap (m : RangeMap Nat) (r : ActiveRegion) :
    RangeMap Nat :=
  m.setRange r.startPos r.length r.id

/-- Modelled from the spec: "extend the current run" with the confirmed variant `p` (body
not in the header): if this is the run's first variant, `regionStartPos` becomes the anchor
(or `p` if there is no anchor yet); `variantCount` is incremented; `prevVariantPos` becomes
`p`.  A variant has now been seen, and the anchor is the first position after it. -/
def extendRun (s : ActiveRegionDetector) (p : Int) : ActiveRegionDetector :=
  { s with
    activeRegionStartPos :=
      if s.numVariants = 0 then
        (if s.isBeginning then p else s.anchorPosFollowingPrevVariant)
      else s.activeRegionStartPos
    numVariants := s.numVariants + 1
    prevVariantPos := p
    anchorPosFollowingPrevVariant := p + 1
    isBeginning := false }

/-- Modelled from the spec: "close run" (body not in the header): with at least
`MinNumVariantsPerRegion` variants, materialize the region `[regionStartPos,
prevVariantPos]` under the next region id and populate the Position Index for each of its
positions; a region longer than `MaxBufferSize` is fatal; with fewer variants the run is
discarded.  Either way the run state is reset. -/
def closeRun (s : ActiveRegionDetector) : Except FatalError ActiveRegionDetector :=
  if MinNumVariantsPerRegion ≤ s.numVariants then
    let r : ActiveRegion := ⟨s.nextActiveRegionId, s.activeRegionStartPos, s.prevVariantPos⟩
    if MaxBufferSize < r.length then
      .error .regionSpanExceedsBuffer
    else
      .ok { s with
        activeRegions := s.activeRegions ++ [r]
        posToActiveRegionIdMap := setPosToActiveRegionIdMap s.posToActiveRegionIdMap r
        nextActiveRegionId := s.nextActiveRegionId + 1
        activeRegionStartPos := -1
        numVariants := 0 }
  else
    .ok { s with activeRegionStartPos := -1, numVariants := 0 }

/-- Modelled from the spec: the decision rule of `advanceTo` at one position `p` (body not
in the header); `isVariant` tells whether `p` is a confirmed variant position.

* confirmed variant, `prevVariantPos` unset or `p - prevVariantPos <=
  MaxDistanceBetweenTwoVariants`: extend the current run;
* confirmed variant otherwise: close the run, then start a new run with `p` as its first
  variant;
* non-variant position: the run state is unaltered; the anchor advances to `p + 1` when no
  run is open. -/
def processPosition (isVariant : Bool) (s : ActiveRegionDetector) (p : Int) :
    Except FatalError ActiveRegionDetector :=
  if isVariant then
    if s.isBeginning ∨ p - s.prevVariantPos ≤ (MaxDistanceBetweenTwoVariants : Int) then
      .ok { extendRun s p with lastSeenPos := some p }
    else
      match closeRun s with
      | .error e => .error e
      | .ok s' => .ok { extendRun s' p with lastSeenPos := some p }
  else if s.numVariants = 0 then
    .ok { s with anchorPosFollowingPrevVariant := p + 1, lastSeenPos := some p }
  else
    .ok { s with lastSeenPos := some p }

/-- Apply `processPosition` to the `n` positions `p, p + 1, ..., p + n - 1` in order;
`isCandidateVariant` is the Evidence Source. -/
def advanceOver (isCandidateVariant : Int → Bool) :
    Nat → Int → ActiveRegionDetector → Except FatalError ActiveRegionDetector
  | 0, _, s => .ok s
  | n + 1, p, s =>
    match processPosition (isCandidateVariant p) s p with
    | .error e => .error e
    | .ok s' => advanceOver isCandidateVariant n (p + 1) s'

/-- Modelled from the spec: `updateEndPosition(pos)`, the spec's `advanceTo(pos)` (declared
only): every position after the last-seen position up to `pos` is processed in order (on
the first call, `pos` itself); a position before the last-seen one is a non-monotonic
advance, which is fatal. -/
def updateEndPosition (isCandidateVariant : Int → Bool) (s : ActiveRegionDetector)
    (pos : Int) : Except FatalError ActiveRegionDetector :=
  match s.lastSeenPos with
  | none => advanceOver isCandidateVariant 1 pos s
  | some l =>
    if pos < l then .error .nonMonotonicAdvance
    else advanceOver isCandidateVariant (pos - l).toNat (l + 1) s

/-- A sequence of `updateEndPosition` calls, one per listed position, in order. -/
def updateEndPositions (isCandidateVariant : Int → Bool) :
    List Int → ActiveRegionDetector → Except FatalError ActiveRegionDetector
  | [], s => .ok s
  | pos :: rest, s =>
    match updateEndPosition isCandidateVariant s pos with
    | .error e => .error e
    | .ok s' => updateEndPositions isCandidateVariant rest s'

/-- Modelled from the spec: `clearPosToActiveRegionMap(pos)` (declared only): remove all
entries of the position-to-region index strictly before `pos`. -/
def clearPosToActiveRegionMap (s : ActiveRegionDetector) (pos : Int) :
    ActiveRegionDetector :=
  { s with posToActiveRegionIdMap := s.posToActiveRegionIdMap.eraseBefore pos }

/-- Modelled from the spec: `clearPolySites(pos)` (declared only): remove all polymorphic
sites strictly before `pos`. -/
def clearPolySites (s : ActiveRegionDetector) (pos : Int) : ActiveRegionDetector :=
  { s with polySites := s.polySites.eraseBefore pos }

/-- Modelled from the spec: `clearReadBuffer(pos)` (declared only): it evicts from the read
buffer, the external Evidence Source, and leaves the members embedded here as they are. -/
def clearReadBuffer (s : ActiveRegionDetector) (_pos : Int) : ActiveRegionDetector := s

/-- Modelled from the spec: `clear()` (declared only): "resets all state to the initial
(pre-scan) condition", the one the constructor establishes for the same construction
arguments. -/
def clear (s : ActiveRegionDetector) : ActiveRegionDetector :=
  init s.maxIndelSize s.sampleCount

/-! ### The scan invariant

`Inv isVar p0 h s` describes a detector `s` that has processed exactly the positions
`p0, ..., h` (none when `h = p0 - 1`) of the evidence `isVar`. -/

/-- The invariant of the scan. -/
structure Inv (isVar : Int → Bool) (p0 h : Int) (s : ActiveRegionDetector) : Prop where
  /-- While no variant has been seen, the processed positions hold none. -/
  b_novar : s.isBeginning = true → ∀ x, p0 ≤ x → x ≤ h → isVar x = false
  b_count : s.isBeginning = true → s.numVariants = 0
  b_regions : s.isBeginning = true → s.activeRegions = []
  n_count : s.isBeginning = false → 1 ≤ s.numVariants
  /-- The last confirmed variant is a processed variant. -/
  n_prev : s.isBeginning = false →
    isVar s.prevVariantPos = true ∧ p0 ≤ s.prevVariantPos ∧ s.prevVariantPos ≤ h
  n_after : s.isBeginning = false → ∀ x, s.prevVariantPos < x → x ≤ h → isVar x = false
  n_anchor : s.isBeginning = false → s.anchorPosFollowingPrevVariant = s.prevVariantPos + 1
  n_start : s.isBeginning = false →
    p0 ≤ s.activeRegionStartPos ∧ s.activeRegionStartPos ≤ s.prevVariantPos
  n_one : s.isBeginning = false → s.numVariants = 1 →
    ∀ x, s.activeRegionStartPos ≤ x → x < s.prevVariantPos → isVar x = false
  n_two : s.isBeginning = false → 2 ≤ s.numVariants →
    ∃ v, isVar v = true ∧ s.activeRegionStartPos ≤ v ∧ v < s.prevVariantPos ∧
      s.prevVariantPos ≤ v + 13
  /-- In the open run every variant but the last is followed by one within 13 bases. -/
  n_chain : s.isBeginning = false → ∀ v, isVar v = true → s.activeRegionStartPos ≤ v →
    v < s.prevVariantPos →
    ∃ w, isVar w = true ∧ v < w ∧ w ≤ v + 13 ∧ w ≤ s.prevVariantPos
  /-- Variants before the open run are more than 13 bases before each of its variants. -/
  n_sep : s.isBeginning = false → ∀ v w, isVar v = true → isVar w = true → p0 ≤ v →
    v < s.activeRegionStartPos → s.activeRegionStartPos ≤ w → w ≤ h → v + 13 < w
  n_regions : s.isBeginning = false →
    ∀ r ∈ s.activeRegions, r.endPos < s.activeRegionStartPos
  /-- Regions are listed in creation order: each ends before the next starts. -/
  r_pair : s.activeRegions.Pairwise (fun a b => a.endPos < b.startPos ∧ a.id < b.id)
  r_ids : s.activeRegions.map (fun r => r.id) = List.range s.nextActiveRegionId
  r_each : ∀ r ∈ s.activeRegions, r.startPos ≤ r.endPos ∧ r.id < s.nextActiveRegionId ∧
    p0 ≤ r.startPos ∧ r.endPos < h ∧ isVar r.endPos = true ∧ r.length ≤ MaxBufferSize
  r_chain : ∀ r ∈ s.activeRegions, ∀ v, isVar v = true → r.startPos ≤ v → v < r.endPos →
    ∃ w, isVar w = true ∧ v < w ∧ w ≤ v + 13 ∧ w ≤ r.endPos
  r_two : ∀ r ∈ s.activeRegions,
    ∃ v, isVar v = true ∧ r.startPos ≤ v ∧ v < r.endPos ∧ r.endPos ≤ v + 13
  /-- Two processed variants at most 13 bases apart lie in the open run or in one region. -/
  cover : ∀ v w, isVar v = true → isVar w = true → p0 ≤ v → v < w → w ≤ h → w ≤ v + 13 →
    (s.isBeginning = false ∧ s.activeRegionStartPos ≤ v ∧ w ≤ s.prevVariantPos) ∨
    ∃ r ∈ s.activeRegions, r.startPos ≤ v ∧ w ≤ r.endPos
  /-- Every index entry belongs to a listed region. -/
  idx_sound : ∀ k id, s.posToActiveRegionIdMap.find? k = some id →
    ∃ r ∈ s.activeRegions, r.id = id ∧ r.startPos ≤ k ∧ k ≤ r.endPos
  /-- The open run starts at the first variant of the scan or right after a variant. -/
  n_origin : s.isBeginning = false →
    (isVar s.activeRegionStartPos = true ∧
      ∀ x, p0 ≤ x → x < s.activeRegionStartPos → isVar x = false) ∨
    (isVar (s.activeRegionStartPos - 1) = true ∧ p0 ≤ s.activeRegionStartPos - 1)
  /-- A region starts at the first variant of the scan or right after a variant. -/
  r_origin : ∀ r ∈ s.activeRegions,
    (isVar r.startPos = true ∧ ∀ x, p0 ≤ x → x < r.startPos → isVar x = false) ∨
    (isVar (r.startPos - 1) = true ∧ p0 ≤ r.startPos - 1)

/-- Every position of every listed region has that region's id in the index (true as long
as nothing was evicted). -/
def IndexComplete (s : ActiveRegionDetector) : Prop :=
  ∀ r ∈ s.activeRegions, ∀ k, r.startPos ≤ k → k ≤ r.endPos →
    s.posToActiveRegionIdMap.find? k = some r.id

/-- The detector has been advanced: it has processed exactly the positions `p0, ..., h`. -/
def Scanned (isVar : Int → Bool) (p0 h : Int) (s : ActiveRegionDetector) : Prop :=
  s.lastSeenPos = some h ∧ p0 ≤ h ∧ Inv isVar p0 h s

/-- The detector has not been advanced yet. -/
def Unstarted (isVar : Int → Bool) (s : ActiveRegionDetector) : Prop :=
  s.lastSeenPos = none ∧ ∀ p0, Inv isVar p0 (p0 - 1) s

/-- Decidable equality of outcomes, for evaluating concrete scans. -/
instance instDecidableEqOutcome : DecidableEq (Except FatalError ActiveRegionDetector) :=
  fun a b =>
    match a, b with
    | .ok x, .ok y =>
      if h : x = y then isTrue (by rw [h]) else isFalse (fun hc => h (by injection hc))
    | .error x, .error y =>
      if h : x = y then isTrue (by rw [h]) else isFalse (fun hc => h (by injection hc))
    | .ok _, .error _ => isFalse (fun hc => by injection hc)
    | .error _, .ok _ => isFalse (fun hc => by injection hc)

/-! ### Runs of the threshold boundary -/

/-- An Evidence Source whose confirmed variant positions are exactly the listed ones. -/
def evidenceAt (variants : List Int) : Int → Bool := fun p => decide (p ∈ variants)

/-- The detector reached from `init 50 1` by the listed `updateEndPosition` calls (the
initial detector itself if the scan is fatal). -/
def scanFrom (isVar : Int → Bool) (calls : List Int) : ActiveRegionDetector :=
  match updateEndPositions isVar calls (init 50 1) with
  | .ok s => s
  | .error _ => init 50 1

end ActiveRegionDetector

/-! ## Facts about the position index -/

namespace RangeMap

variable {α : Type}

theorem lookup_filter_key (q : Int → Bool) (k : Int) (l : List (Int × α)) :
    List.lookup k (l.filter (fun e => q e.1)) = if q k then List.lookup k l else none := by
  induction l with
  | nil => simp
  | cons e l ih =>
    obtain ⟨k1, v1⟩ := e
    by_cases hk : k = k1
    · subst hk
      by_cases hq : q k = true
      · simp [List.filter_cons, hq, List.lookup_cons]
      · rw [List.filter_cons, if_neg (by simpa using hq), ih, if_neg hq, if_neg hq]
    · have hb : (k == k1) = false := by simpa using hk
      by_cases hq : q k1 = true
      · rw [List.filter_cons, if_pos (by simpa using hq), List.lookup_cons, hb,
          List.lookup_cons, hb, ih]
      · rw [List.filter_cons, if_neg (by simpa using hq), List.lookup_cons, hb, ih]

theorem find?_empty (k : Int) : (empty : RangeMap α).find? k = none := by
  simp [empty, find?]

theorem find?_eraseBefore (m : RangeMap α) (pos k : Int) :
    (m.eraseBefore pos).find? k = if pos ≤ k then m.find? k else none := by
  unfold eraseBefore find?
  have h := lookup_filter_key (fun x => decide (pos ≤ x)) k m.entries
  simpa using h

theorem find?_set (m : RangeMap α) (k k1 : Int) (v : α) :
    (m.set k1 v).find? k = if k = k1 then some v else m.find? k := by
  unfold RangeMap.set find?
  by_cases hk : k = k1
  · subst hk; simp [List.lookup_cons]
  · have hb : (k == k1) = false := by simpa using hk
    have h := lookup_filter_key (fun x => decide (x ≠ k1)) k m.entries
    simp only [List.lookup_cons, hb, hk, if_false]
    rw [h]; simp [hk]

theorem find?_setRange (m : RangeMap α) (start : Int) (n : Nat) (v : α) (k : Int) :
    (m.setRange start n v).find? k =
      if start ≤ k ∧ k < start + n then some v else m.find? k := by
  induction n with
  | zero =>
    have h0 : ¬ (start ≤ k ∧ k < start + ((0 : Nat) : Int)) := by omega
    rw [if_neg h0]; rfl
  | succ n ih =>
    simp only [setRange, find?_set, ih]
    by_cases h1 : k = start + (n : Int)
    · have h3 : start ≤ k ∧ k < start + ((n + 1 : Nat) : Int) := by omega
      rw [if_pos h1, if_pos h3]
    · by_cases h2 : start ≤ k ∧ k < start + (n : Int)
      · have h3 : start ≤ k ∧ k < start + ((n + 1 : Nat) : Int) := by omega
        rw [if_neg h1, if_pos h2, if_pos h3]
      · have h3 : ¬ (start ≤ k ∧ k < start + ((n + 1 : Nat) : Int)) := by omega
        rw [if_neg h1, if_neg h2, if_neg h3]

theorem find?_eq_none_iff (m : RangeMap α) (k : Int) :
    m.find? k = none ↔ k ∉ m.keys := by
  unfold find? keys
  rw [List.lookup_eq_none_iff]
  simp only [List.mem_toFinset, List.mem_map, not_exists, not_and]
  constructor
  · intro h e he hk
    have h1 := h e he
    rw [hk] at h1
    simp at h1
  · intro h e he
    have h1 := h e he
    have h2 : k ≠ e.1 := fun hc => h1 hc.symm
    simpa using h2

theorem mem_keys_iff (m : RangeMap α) (k : Int) :
    k ∈ m.keys ↔ ∃ v, m.find? k = some v := by
  by_cases h : m.find? k = none
  · have := (find?_eq_none_iff m k).1 h
    simp [h, this]
  · have hk : k ∈ m.keys := by
      by_contra hc
      exact h ((find?_eq_none_iff m k).2 hc)
    obtain ⟨v, hv⟩ := Option.ne_none_iff_exists'.1 h
    simp [hk, hv]

end RangeMap

namespace ActiveRegionDetector

theorem getActiveRegionId_of_find? (s : ActiveRegionDetector) (pos : Int) :
    s.getActiveRegionId pos =
      (s.posToActiveRegionIdMap.find? pos).getD noActiveRegionId := by
  unfold getActiveRegionId RangeMap.getConstRefDefault noActiveRegionId
  cases s.posToActiveRegionIdMap.find? pos <;> rfl

/-! ## The scan invariant is kept by every processed position -/

theorem processPosition_nonvariant_fields (s s1 : ActiveRegionDetector) (p : Int)
    (hs : processPosition false s p = Except.ok s1) :
    s1.isBeginning = s.isBeginning ∧ s1.numVariants = s.numVariants ∧
    s1.activeRegions = s.activeRegions ∧ s1.prevVariantPos = s.prevVariantPos ∧
    s1.activeRegionStartPos = s.activeRegionStartPos ∧
    s1.nextActiveRegionId = s.nextActiveRegionId ∧
    s1.posToActiveRegionIdMap = s.posToActiveRegionIdMap ∧
    s1.lastSeenPos = some p ∧
    (s.numVariants ≠ 0 → s1.anchorPosFollowingPrevVariant = s.anchorPosFollowingPrevVariant) := by
  unfold processPosition at hs
  by_cases h0 : s.numVariants = 0
  · simp [h0] at hs; subst hs; simp [h0]
  · simp [h0] at hs; subst hs; simp

theorem inv_nonvariant {isVar : Int → Bool} {p0 h : Int} {s s1 : ActiveRegionDetector}
    (hI : Inv isVar p0 h s) (hv : isVar (h + 1) = false)
    (hs : processPosition false s (h + 1) = Except.ok s1) : Inv isVar p0 (h + 1) s1 := by
  obtain ⟨e1, e2, e3, e4, e5, e6, e7, -, e9⟩ := processPosition_nonvariant_fields s s1 _ hs
  have hstep : ∀ x, x ≤ h + 1 → isVar x = true → x ≤ h := by
    intro x hx hxv
    by_contra hc
    have : x = h + 1 := by omega
    rw [this, hv] at hxv
    exact absurd hxv (by simp)
  constructor <;> simp only [e1, e2, e3, e4, e5, e6, e7]
  · intro hb x hx1 hx2
    by_cases hx : x = h + 1
    · rw [hx]; exact hv
    · exact hI.b_novar hb x hx1 (by omega)
  · exact hI.b_count
  · exact hI.b_regions
  · exact hI.n_count
  · intro hb
    obtain ⟨h1, h2, h3⟩ := hI.n_prev hb
    exact ⟨h1, h2, by omega⟩
  · intro hb x hx1 hx2
    by_cases hx : x = h + 1
    · rw [hx]; exact hv
    · exact hI.n_after hb x hx1 (by omega)
  · intro hb
    have := hI.n_count hb
    rw [e9 (by omega)]
    exact hI.n_anchor hb
  · exact hI.n_start
  · exact hI.n_one
  · exact hI.n_two
  · exact hI.n_chain
  · intro hb v w hv1 hw1 h1 h2 h3 h4
    exact hI.n_sep hb v w hv1 hw1 h1 h2 h3 (hstep w h4 hw1)
  · exact hI.n_regions
  · exact hI.r_pair
  · exact hI.r_ids
  · intro r hr
    obtain ⟨h1, h2, h3, h4, h5, h6⟩ := hI.r_each r hr
    exact ⟨h1, h2, h3, by omega, h5, h6⟩
  · exact hI.r_chain
  · exact hI.r_two
  · intro v w hv1 hw1 h1 h2 h3 h4
    exact hI.cover v w hv1 hw1 h1 h2 (hstep w h3 hw1) h4
  · exact hI.idx_sound
  · exact hI.n_origin
  · exact hI.r_origin


theorem inv_first_variant {isVar : Int → Bool} {p0 h : Int} {s : ActiveRegionDetector}
    (hI : Inv isVar p0 h s) (hr : p0 ≤ h + 1) (hv : isVar (h + 1) = true)
    (hb : s.isBeginning = true) :
    Inv isVar p0 (h + 1) { extendRun s (h + 1) with lastSeenPos := some (h + 1) } := by
  have hc := hI.b_count hb
  have hreg := hI.b_regions hb
  have hno : ∀ x, p0 ≤ x → x < h + 1 → isVar x = true → False := by
    intro x h1 h2 h3
    have := hI.b_novar hb x h1 (by omega)
    rw [this] at h3
    exact absurd h3 (by simp)
  constructor <;> simp only [extendRun, hb, hc, hreg, if_true]
  · simp
  · simp
  · simp
  · simp
  · intro _; exact ⟨hv, hr, le_refl _⟩
  · intro _ x h1 h2; omega
  · simp
  · intro _; exact ⟨hr, le_refl _⟩
  · intro _ _ x h1 h2; omega
  · intro _ h2; omega
  · intro _ v _ h1 h2; omega
  · intro _ v w hv1 _ h1 h2 _ _
    exact (hno v h1 h2 hv1).elim
  · simp
  · simp
  · have := hI.r_ids
    rw [hreg] at this
    exact this
  · simp
  · simp
  · simp
  · intro v w hv1 _ h1 h2 h3 _
    exact (hno v h1 (by omega) hv1).elim
  · intro k id hk
    obtain ⟨r, hr1, _⟩ := hI.idx_sound k id hk
    rw [hreg] at hr1
    exact absurd hr1 (by simp)
  · intro _
    refine Or.inl ⟨hv, fun x h1 h2 => ?_⟩
    by_contra hc
    exact hno x h1 h2 (by simpa using hc)
  · simp


theorem inv_extend {isVar : Int → Bool} {p0 h : Int} {s : ActiveRegionDetector}
    (hI : Inv isVar p0 h s) (hv : isVar (h + 1) = true)
    (hb : s.isBeginning = false) (hgap : h + 1 - s.prevVariantPos ≤ 13) :
    Inv isVar p0 (h + 1) { extendRun s (h + 1) with lastSeenPos := some (h + 1) } := by
  have hc := hI.n_count hb
  have h0 : ¬ s.numVariants = 0 := by omega
  obtain ⟨hp1, hp2, hp3⟩ := hI.n_prev hb
  obtain ⟨hs1, hs2⟩ := hI.n_start hb
  have hafter : ∀ x, s.prevVariantPos < x → x < h + 1 → isVar x = true → False := by
    intro x h1 h2 h3
    have := hI.n_after hb x h1 (by omega)
    rw [this] at h3
    exact absurd h3 (by simp)
  have hsep : ∀ v w, isVar v = true → isVar w = true → p0 ≤ v →
      v < s.activeRegionStartPos → s.activeRegionStartPos ≤ w → w ≤ h + 1 → v + 13 < w := by
    intro v w hv1 hw1 h1 h2 h3 h4
    by_cases hw : w ≤ h
    · exact hI.n_sep hb v w hv1 hw1 h1 h2 h3 hw
    · have := hI.n_sep hb v s.prevVariantPos hv1 hp1 h1 h2 hs2 hp3
      omega
  constructor <;> simp only [extendRun, hb, if_neg h0]
  · simp
  · simp
  · simp
  · simp
  · intro _; exact ⟨hv, by omega, le_refl _⟩
  · intro _ x h1 h2; omega
  · simp
  · intro _; exact ⟨hs1, by omega⟩
  · intro _ h2; omega
  · intro _ _
    exact ⟨s.prevVariantPos, hp1, hs2, by omega, by omega⟩
  · intro _ v hv1 h1 h2
    by_cases hlt : v < s.prevVariantPos
    · obtain ⟨w, hw1, hw2, hw3, hw4⟩ := hI.n_chain hb v hv1 h1 hlt
      exact ⟨w, hw1, hw2, hw3, by omega⟩
    · by_cases heq : v = s.prevVariantPos
      · exact ⟨h + 1, hv, by omega, by omega, le_refl _⟩
      · exact (hafter v (by omega) h2 hv1).elim
  · intro _; exact hsep
  · intro _; exact hI.n_regions hb
  · exact hI.r_pair
  · exact hI.r_ids
  · intro r hr
    obtain ⟨h1, h2, h3, h4, h5, h6⟩ := hI.r_each r hr
    exact ⟨h1, h2, h3, by omega, h5, h6⟩
  · exact hI.r_chain
  · exact hI.r_two
  · intro v w hv1 hw1 h1 h2 h3 h4
    by_cases hw : w ≤ h
    · rcases hI.cover v w hv1 hw1 h1 h2 hw h4 with ⟨_, h5, h6⟩ | h5
      · exact Or.inl ⟨trivial, h5, by omega⟩
      · exact Or.inr h5
    · refine Or.inl ⟨trivial, ?_, by omega⟩
      by_contra hc2
      have := hsep v w hv1 hw1 h1 (by omega) (by omega) h3
      omega
  · exact hI.idx_sound
  · intro _; exact hI.n_origin hb
  · exact hI.r_origin


theorem find?_setPosToActiveRegionIdMap (m : RangeMap Nat) (r : ActiveRegion) (k : Int)
    (hr : r.startPos ≤ r.endPos) :
    (setPosToActiveRegionIdMap m r).find? k =
      if r.startPos ≤ k ∧ k ≤ r.endPos then some r.id else m.find? k := by
  unfold setPosToActiveRegionIdMap
  rw [RangeMap.find?_setRange]
  have hlen : (r.length : Int) = r.endPos + 1 - r.startPos := by
    unfold ActiveRegion.length
    exact Int.toNat_of_nonneg (by omega)
  by_cases hk : r.startPos ≤ k ∧ k ≤ r.endPos
  · rw [if_pos hk, if_pos (by omega)]
  · rw [if_neg hk, if_neg (by omega)]

theorem inv_close_region {isVar : Int → Bool} {p0 h : Int} {s : ActiveRegionDetector}
    (hI : Inv isVar p0 h s) (hv : isVar (h + 1) = true)
    (hb : s.isBeginning = false) (hgap : 13 < h + 1 - s.prevVariantPos)
    (h2 : 2 ≤ s.numVariants)
    (hlen : (ActiveRegion.mk s.nextActiveRegionId s.activeRegionStartPos
      s.prevVariantPos).length ≤ MaxBufferSize) :
    Inv isVar p0 (h + 1)
      { extendRun
          { s with
            activeRegions := s.activeRegions ++
              [⟨s.nextActiveRegionId, s.activeRegionStartPos, s.prevVariantPos⟩]
            posToActiveRegionIdMap := setPosToActiveRegionIdMap s.posToActiveRegionIdMap
              ⟨s.nextActiveRegionId, s.activeRegionStartPos, s.prevVariantPos⟩
            nextActiveRegionId := s.nextActiveRegionId + 1
            activeRegionStartPos := -1
            numVariants := 0 } (h + 1)
        with lastSeenPos := some (h + 1) } := by
  obtain ⟨hp1, hp2, hp3⟩ := hI.n_prev hb
  obtain ⟨hs1, hs2⟩ := hI.n_start hb
  have hanc := hI.n_anchor hb
  have hafter : ∀ x, s.prevVariantPos < x → x < h + 1 → isVar x = true → False := by
    intro x h1 h2 h3
    have := hI.n_after hb x h1 (by omega)
    rw [this] at h3
    exact absurd h3 (by simp)
  have hle : ∀ v, isVar v = true → v < h + 1 → v ≤ s.prevVariantPos := by
    intro v hv1 hv2
    by_contra hc
    exact hafter v (by omega) hv2 hv1
  constructor <;> simp only [extendRun, hb, hanc, if_true, Bool.false_eq_true, if_false]
  · simp
  · simp
  · simp
  · simp
  · intro _; exact ⟨hv, by omega, le_refl _⟩
  · intro _ x h1 h2; omega
  · simp
  · intro _; exact ⟨by omega, by omega⟩
  · intro _ _ x h1 h3
    by_contra hc
    exact hafter x (by omega) h3 (by simpa using hc)
  · intro _ h3; omega
  · intro _ v hv1 h1 h3
    exact (hafter v (by omega) h3 hv1).elim
  · intro _ v w hv1 hw1 h1 h3 h4 h5
    by_cases hw : w < h + 1
    · exact (hafter w (by omega) hw hw1).elim
    · omega
  · intro _ r hr
    rcases List.mem_append.1 hr with hr1 | hr1
    · have := hI.n_regions hb r hr1
      omega
    · rw [List.mem_singleton.1 hr1]
      show s.prevVariantPos < s.prevVariantPos + 1
      omega
  · rw [List.pairwise_append]
    refine ⟨hI.r_pair, by simp, ?_⟩
    intro a ha b hb1
    rw [List.mem_singleton.1 hb1]
    exact ⟨hI.n_regions hb a ha, (hI.r_each a ha).2.1⟩
  · rw [List.map_append, hI.r_ids, List.range_succ]
    rfl
  · intro r hr
    rcases List.mem_append.1 hr with hr1 | hr1
    · obtain ⟨h1, h3, h4, h5, h6, h7⟩ := hI.r_each r hr1
      exact ⟨h1, by omega, h4, by omega, h6, h7⟩
    · rw [List.mem_singleton.1 hr1]
      exact ⟨hs2, by simp, hs1, by simp only; omega, hp1, hlen⟩
  · intro r hr
    rcases List.mem_append.1 hr with hr1 | hr1
    · exact hI.r_chain r hr1
    · rw [List.mem_singleton.1 hr1]
      exact hI.n_chain hb
  · intro r hr
    rcases List.mem_append.1 hr with hr1 | hr1
    · exact hI.r_two r hr1
    · rw [List.mem_singleton.1 hr1]
      exact hI.n_two hb h2
  · intro v w hv1 hw1 h1 h3 h4 h5
    by_cases hw : w ≤ h
    · rcases hI.cover v w hv1 hw1 h1 h3 hw h5 with ⟨_, h6, h7⟩ | ⟨r, hr, h6⟩
      · exact Or.inr ⟨_, List.mem_append.2 (Or.inr (List.mem_singleton.2 rfl)), h6, h7⟩
      · exact Or.inr ⟨r, List.mem_append.2 (Or.inl hr), h6⟩
    · have := hle v hv1 (by omega)
      omega
  · intro k id hk
    rw [find?_setPosToActiveRegionIdMap _ _ _ hs2] at hk
    by_cases hin : s.activeRegionStartPos ≤ k ∧ k ≤ s.prevVariantPos
    · rw [if_pos hin] at hk
      exact ⟨_, List.mem_append.2 (Or.inr (List.mem_singleton.2 rfl)),
        Option.some.inj hk, hin.1, hin.2⟩
    · rw [if_neg hin] at hk
      obtain ⟨r, hr, h6⟩ := hI.idx_sound k id hk
      exact ⟨r, List.mem_append.2 (Or.inl hr), h6⟩
  · intro _
    refine Or.inr ⟨?_, by omega⟩
    have e : s.prevVariantPos + 1 - 1 = s.prevVariantPos := by omega
    rw [e]; exact hp1
  · intro r hr
    rcases List.mem_append.1 hr with hr1 | hr1
    · exact hI.r_origin r hr1
    · rw [List.mem_singleton.1 hr1]
      exact hI.n_origin hb


theorem inv_close_discard {isVar : Int → Bool} {p0 h : Int} {s : ActiveRegionDetector}
    (hI : Inv isVar p0 h s) (hv : isVar (h + 1) = true)
    (hb : s.isBeginning = false) (hgap : 13 < h + 1 - s.prevVariantPos)
    (h2 : ¬ 2 ≤ s.numVariants) :
    Inv isVar p0 (h + 1)
      { extendRun { s with activeRegionStartPos := -1, numVariants := 0 } (h + 1)
        with lastSeenPos := some (h + 1) } := by
  obtain ⟨hp1, hp2, hp3⟩ := hI.n_prev hb
  obtain ⟨hs1, hs2⟩ := hI.n_start hb
  have hanc := hI.n_anchor hb
  have hone : s.numVariants = 1 := by
    have := hI.n_count hb
    omega
  have hafter : ∀ x, s.prevVariantPos < x → x < h + 1 → isVar x = true → False := by
    intro x h1 h2 h3
    have := hI.n_after hb x h1 (by omega)
    rw [this] at h3
    exact absurd h3 (by simp)
  have hle : ∀ v, isVar v = true → v < h + 1 → v ≤ s.prevVariantPos := by
    intro v hv1 hv2
    by_contra hc
    exact hafter v (by omega) hv2 hv1
  constructor <;> simp only [extendRun, hb, hanc, if_true, Bool.false_eq_true, if_false]
  · simp
  · simp
  · simp
  · simp
  · intro _; exact ⟨hv, by omega, le_refl _⟩
  · intro _ x h1 h2; omega
  · simp
  · intro _; exact ⟨by omega, by omega⟩
  · intro _ _ x h1 h3
    by_contra hc
    exact hafter x (by omega) h3 (by simpa using hc)
  · intro _ h3; omega
  · intro _ v hv1 h1 h3
    exact (hafter v (by omega) h3 hv1).elim
  · intro _ v w hv1 hw1 h1 h3 h4 h5
    by_cases hw : w < h + 1
    · exact (hafter w (by omega) hw hw1).elim
    · omega
  · intro _ r hr
    have := hI.n_regions hb r hr
    omega
  · exact hI.r_pair
  · exact hI.r_ids
  · intro r hr
    obtain ⟨h1, h3, h4, h5, h6, h7⟩ := hI.r_each r hr
    exact ⟨h1, h3, h4, by omega, h6, h7⟩
  · exact hI.r_chain
  · exact hI.r_two
  · intro v w hv1 hw1 h1 h3 h4 h5
    by_cases hw : w ≤ h
    · rcases hI.cover v w hv1 hw1 h1 h3 hw h5 with ⟨_, h6, h7⟩ | h6
      · have := hI.n_one hb hone v h6 (by omega)
        rw [this] at hv1
        exact absurd hv1 (by simp)
      · exact Or.inr h6
    · have := hle v hv1 (by omega)
      omega
  · exact hI.idx_sound
  · intro _
    refine Or.inr ⟨?_, by omega⟩
    have e : s.prevVariantPos + 1 - 1 = s.prevVariantPos := by omega
    rw [e]; exact hp1
  · exact hI.r_origin


theorem indexComplete_close_region {isVar : Int → Bool} {p0 h : Int}
    {s : ActiveRegionDetector} (hI : Inv isVar p0 h s) (hb : s.isBeginning = false)
    (hc : IndexComplete s) (p : Int) :
    IndexComplete
      { extendRun
          { s with
            activeRegions := s.activeRegions ++
              [⟨s.nextActiveRegionId, s.activeRegionStartPos, s.prevVariantPos⟩]
            posToActiveRegionIdMap := setPosToActiveRegionIdMap s.posToActiveRegionIdMap
              ⟨s.nextActiveRegionId, s.activeRegionStartPos, s.prevVariantPos⟩
            nextActiveRegionId := s.nextActiveRegionId + 1
            activeRegionStartPos := -1
            numVariants := 0 } p
        with lastSeenPos := some p } := by
  obtain ⟨hs1, hs2⟩ := hI.n_start hb
  intro r hr k hk1 hk2
  simp only [extendRun] at hr ⊢
  rw [find?_setPosToActiveRegionIdMap _ _ _ hs2]
  rcases List.mem_append.1 hr with hr1 | hr1
  · have hlt := hI.n_regions hb r hr1
    have hnot : ¬ (s.activeRegionStartPos ≤ k ∧ k ≤ s.prevVariantPos) := by
      intro hin
      have := hin.1
      omega
    simp only [] at hnot ⊢
    rw [if_neg hnot]
    exact hc r hr1 k hk1 hk2
  · rw [List.mem_singleton.1 hr1] at hk1 hk2 ⊢
    simp only [] at hk1 hk2 ⊢
    rw [if_pos ⟨hk1, hk2⟩]

theorem processPosition_inv {isVar : Int → Bool} {p0 h p : Int}
    {s s1 : ActiveRegionDetector} (hp : p = h + 1) (hI : Inv isVar p0 h s) (hr : p0 ≤ p)
    (hs : processPosition (isVar p) s p = Except.ok s1) :
    Inv isVar p0 p s1 ∧ s1.lastSeenPos = some p ∧ (IndexComplete s → IndexComplete s1) := by
  subst hp
  cases hv : isVar (h + 1) with
  | false =>
    rw [hv] at hs
    obtain ⟨-, -, e3, -, -, -, e7, e8, -⟩ := processPosition_nonvariant_fields s s1 _ hs
    refine ⟨inv_nonvariant hI hv hs, e8, fun hc => ?_⟩
    unfold IndexComplete
    rw [e3, e7]
    exact hc
  | true =>
    rw [hv] at hs
    unfold processPosition at hs
    cases hb : s.isBeginning with
    | true =>
      simp only [hb, if_true, true_or] at hs
      injection hs with hs
      subst hs
      exact ⟨inv_first_variant hI hr hv hb, rfl, fun hc => hc⟩
    | false =>
      by_cases hgap : h + 1 - s.prevVariantPos ≤ 13
      · have hg : h + 1 - s.prevVariantPos ≤ (MaxDistanceBetweenTwoVariants : Int) := hgap
        simp only [hb, if_true, hg, or_true] at hs
        injection hs with hs
        subst hs
        exact ⟨inv_extend hI hv hb hgap, rfl, fun hc => hc⟩
      · have hg : ¬ h + 1 - s.prevVariantPos ≤ (MaxDistanceBetweenTwoVariants : Int) := hgap
        simp only [hb, if_true, hg, or_false, Bool.false_eq_true, if_false] at hs
        unfold closeRun at hs
        by_cases h2 : 2 ≤ s.numVariants
        · have h2m : MinNumVariantsPerRegion ≤ s.numVariants := h2
          simp only [h2m, if_true] at hs
          by_cases hlen : MaxBufferSize < (ActiveRegion.mk s.nextActiveRegionId
              s.activeRegionStartPos s.prevVariantPos).length
          · simp only [hlen, if_true] at hs
            exact absurd hs (by simp)
          · simp only [hlen, if_false] at hs
            injection hs with hs
            subst hs
            exact ⟨inv_close_region hI hv hb (by omega) h2 (by omega), rfl,
              fun hc => indexComplete_close_region hI hb hc _⟩
        · have h2m : ¬ MinNumVariantsPerRegion ≤ s.numVariants := h2
          simp only [h2m, if_false] at hs
          injection hs with hs
          subst hs
          exact ⟨inv_close_discard hI hv hb (by omega) h2, rfl, fun hc => hc⟩

theorem advanceOver_inv {isVar : Int → Bool} {p0 : Int} :
    ∀ (n : Nat) (h p : Int) (s s1 : ActiveRegionDetector), p = h + 1 →
      Inv isVar p0 h s → p0 ≤ p →
      advanceOver isVar n p s = Except.ok s1 →
      Inv isVar p0 (h + n) s1 ∧ (1 ≤ n → s1.lastSeenPos = some (h + n)) ∧
        (n = 0 → s1 = s) ∧ (IndexComplete s → IndexComplete s1) := by
  intro n
  induction n with
  | zero =>
    intro h p s s1 _ hI _ hs
    simp only [advanceOver] at hs
    injection hs with hs
    subst hs
    refine ⟨by simpa using hI, by omega, fun _ => rfl, fun hc => hc⟩
  | succ n ih =>
    intro h p s s1 hp hI hr hs
    simp only [advanceOver] at hs
    cases hstep : processPosition (isVar p) s p with
    | error e => rw [hstep] at hs; exact absurd hs (by simp)
    | ok s2 =>
      rw [hstep] at hs
      simp only [] at hs
      obtain ⟨hI2, hl2, hc2⟩ := processPosition_inv hp hI hr hstep
      obtain ⟨hI3, hl3, he3, hc3⟩ := ih p (p + 1) s2 s1 rfl hI2 (by omega) hs
      have hpn : p + (n : Int) = h + ((n + 1 : Nat) : Int) := by
        push_cast; omega
      refine ⟨by rw [← hpn]; exact hI3, fun _ => ?_, fun h0 => by omega,
        fun hc => hc3 (hc2 hc)⟩
      by_cases hn : n = 0
      · rw [he3 hn, hl2, hn, hp]; simp
      · rw [hl3 (by omega), hpn]

/-! ## The invariant along calls of `updateEndPosition` -/

theorem unstarted_init (isVar : Int → Bool) (maxIndelSize sampleCount : Nat) :
    Unstarted isVar (init maxIndelSize sampleCount) ∧
      IndexComplete (init maxIndelSize sampleCount) := by
  refine ⟨⟨rfl, fun p0 => ?_⟩, ?_⟩
  · constructor <;> simp only [init]
    · intro _ x h1 h2; omega
    · simp
    · simp
    · simp
    · simp
    · simp
    · simp
    · simp
    · simp
    · simp
    · simp
    · simp
    · simp
    · simp
    · simp
    · simp
    · simp
    · simp
    · intro v w _ _ h1 h2 h3 _; omega
    · intro k id hk
      rw [RangeMap.find?_empty] at hk
      exact absurd hk (by simp)
    · simp
    · simp
  · intro r hr
    simp [init] at hr

theorem updateEndPosition_first {isVar : Int → Bool} {s s1 : ActiveRegionDetector}
    {pos : Int} (hU : Unstarted isVar s)
    (hs : updateEndPosition isVar s pos = Except.ok s1) :
    Scanned isVar pos pos s1 ∧ (IndexComplete s → IndexComplete s1) := by
  unfold updateEndPosition at hs
  rw [hU.1] at hs
  simp only [] at hs
  obtain ⟨hI, hl, -, hc⟩ :=
    advanceOver_inv 1 (pos - 1) pos s s1 (by omega) (hU.2 pos) (le_refl _) hs
  have e : pos - 1 + ((1 : Nat) : Int) = pos := by push_cast; omega
  rw [e] at hI hl
  exact ⟨⟨hl (le_refl _), le_refl _, hI⟩, hc⟩

theorem updateEndPosition_next {isVar : Int → Bool} {s s1 : ActiveRegionDetector}
    {p0 h pos : Int} (hS : Scanned isVar p0 h s)
    (hs : updateEndPosition isVar s pos = Except.ok s1) :
    h ≤ pos ∧ Scanned isVar p0 pos s1 ∧ (IndexComplete s → IndexComplete s1) := by
  obtain ⟨hl, hr, hI⟩ := hS
  unfold updateEndPosition at hs
  rw [hl] at hs
  simp only [] at hs
  by_cases hlt : pos < h
  · rw [if_pos hlt] at hs
    exact absurd hs (by simp)
  · rw [if_neg hlt] at hs
    obtain ⟨hI1, hl1, he1, hc1⟩ :=
      advanceOver_inv (pos - h).toNat h (h + 1) s s1 rfl hI (by omega) hs
    have e : h + (((pos - h).toNat : Nat) : Int) = pos := by
      rw [Int.toNat_of_nonneg (by omega)]; omega
    rw [e] at hI1 hl1
    refine ⟨by omega, ⟨?_, by omega, hI1⟩, hc1⟩
    by_cases hn : (pos - h).toNat = 0
    · rw [he1 hn, hl]
      have : pos = h := by omega
      rw [this]
    · exact hl1 (by omega)

theorem updateEndPositions_next {isVar : Int → Bool} {p0 : Int} :
    ∀ (calls : List Int) (h : Int) (s s1 : ActiveRegionDetector), Scanned isVar p0 h s →
      updateEndPositions isVar calls s = Except.ok s1 →
      ∃ h1, h ≤ h1 ∧ Scanned isVar p0 h1 s1 ∧ (IndexComplete s → IndexComplete s1) := by
  intro calls
  induction calls with
  | nil =>
    intro h s s1 hS hs
    simp only [updateEndPositions] at hs
    injection hs with hs
    subst hs
    exact ⟨h, le_refl _, hS, fun hc => hc⟩
  | cons pos rest ih =>
    intro h s s1 hS hs
    simp only [updateEndPositions] at hs
    cases hstep : updateEndPosition isVar s pos with
    | error e => rw [hstep] at hs; exact absurd hs (by simp)
    | ok s2 =>
      rw [hstep] at hs
      simp only [] at hs
      obtain ⟨h2, hS2, hc2⟩ := updateEndPosition_next hS hstep
      obtain ⟨h3, hle, hS3, hc3⟩ := ih pos s2 s1 hS2 hs
      exact ⟨h3, by omega, hS3, fun hc => hc3 (hc2 hc)⟩

theorem updateEndPositions_init {isVar : Int → Bool} {p0 : Int} {rest : List Int}
    {maxIndelSize sampleCount : Nat} {s : ActiveRegionDetector}
    (hs : updateEndPositions isVar (p0 :: rest) (init maxIndelSize sampleCount)
      = Except.ok s) :
    ∃ h, p0 ≤ h ∧ Scanned isVar p0 h s ∧ IndexComplete s := by
  simp only [updateEndPositions] at hs
  cases hstep : updateEndPosition isVar (init maxIndelSize sampleCount) p0 with
  | error e => rw [hstep] at hs; exact absurd hs (by simp)
  | ok s2 =>
    rw [hstep] at hs
    simp only [] at hs
    obtain ⟨hU, hc0⟩ := unstarted_init isVar maxIndelSize sampleCount
    obtain ⟨hS2, hc2⟩ := updateEndPosition_first hU hstep
    obtain ⟨h3, hle, hS3, hc3⟩ := updateEndPositions_next rest p0 s2 s hS2 hs
    exact ⟨h3, hle, hS3, hc3 (hc2 hc0)⟩

theorem updateEndPositions_inv {isVar : Int → Bool} {calls : List Int}
    {maxIndelSize sampleCount : Nat} {s : ActiveRegionDetector}
    (hs : updateEndPositions isVar calls (init maxIndelSize sampleCount) = Except.ok s) :
    ∃ p0 h, Inv isVar p0 h s := by
  cases calls with
  | nil =>
    simp only [updateEndPositions] at hs
    injection hs with hs
    subst hs
    exact ⟨0, 0 - 1, (unstarted_init isVar maxIndelSize sampleCount).1.2 0⟩
  | cons p0 rest =>
    obtain ⟨h, -, hS, -⟩ := updateEndPositions_init hs
    exact ⟨p0, h, hS.2.2⟩

/-! ## Consequences of the invariant -/

theorem regions_trichotomy {isVar : Int → Bool} {p0 h : Int} {s : ActiveRegionDetector}
    (hI : Inv isVar p0 h s) :
    ∀ r1 ∈ s.activeRegions, ∀ r2 ∈ s.activeRegions,
      r1 = r2 ∨ (r1.endPos < r2.startPos ∧ r1.id < r2.id) ∨
        (r2.endPos < r1.startPos ∧ r2.id < r1.id) := by
  have hp : s.activeRegions.Pairwise (fun a b =>
      a = b ∨ (a.endPos < b.startPos ∧ a.id < b.id) ∨
        (b.endPos < a.startPos ∧ b.id < a.id)) :=
    hI.r_pair.imp (fun hab => Or.inr (Or.inl hab))
  intro r1 h1 r2 h2
  refine List.Pairwise.forall_of_forall ?_ ?_ hp h1 h2
  · intro a b hab
    rcases hab with hab | hab | hab
    · exact Or.inl hab.symm
    · exact Or.inr (Or.inr hab)
    · exact Or.inr (Or.inl hab)
  · intro a _
    exact Or.inl rfl

theorem region_end_of_no_next {isVar : Int → Bool} {p0 h : Int} {s : ActiveRegionDetector}
    (hI : Inv isVar p0 h s) {r : ActiveRegion} (hr : r ∈ s.activeRegions) {v : Int}
    (hv : isVar v = true) (h1 : r.startPos ≤ v) (h2 : v ≤ r.endPos)
    (hno : ∀ x, isVar x = true → v < x → x ≤ v + 13 → False) : r.endPos = v := by
  by_contra hne
  obtain ⟨w, hw1, hw2, hw3, -⟩ := hI.r_chain r hr v hv h1 (by omega)
  exact hno w hw1 hw2 hw3

/-- C1: for every detector state and every position, `getActiveRegionId` returns the id
stored for the position in the position-to-region index when an entry exists, and the
sentinel `(ActiveRegionId)(-1)` when none exists; an entry is absent exactly when the
position is not among the retained keys. -/
theorem getActiveRegionId_stored_or_none (s : ActiveRegionDetector) (pos : Int) :
    (∀ id, s.posToActiveRegionIdMap.find? pos = some id → s.getActiveRegionId pos = id) ∧
    (s.posToActiveRegionIdMap.find? pos = none →
      s.getActiveRegionId pos = toActiveRegionId (-1)) ∧
    (s.posToActiveRegionIdMap.find? pos = none ↔ pos ∉ s.posToActiveRegionIdMap.keys) ∧
    toActiveRegionId (-1) = 2 ^ ActiveRegionIdBits - 1 := by
  refine ⟨?_, ?_, RangeMap.find?_eq_none_iff _ _, by decide⟩
  · intro id h
    simp [getActiveRegionId, RangeMap.getConstRefDefault, h]
  · intro h
    simp [getActiveRegionId, RangeMap.getConstRefDefault, h]

/-- Witness for C1: a detector whose index holds id 7 at position 42 and nothing at 43. -/
theorem getActiveRegionId_stored_or_none_witness :
    getActiveRegionId
        { init 50 1 with posToActiveRegionIdMap := (RangeMap.empty).set 42 7 } 42 = 7 ∧
    getActiveRegionId
        { init 50 1 with posToActiveRegionIdMap := (RangeMap.empty).set 42 7 } 43
      = 4294967295 :=
  ⟨(getActiveRegionId_stored_or_none
      { init 50 1 with posToActiveRegionIdMap := (RangeMap.empty).set 42 7 } 42).1 7
        (by decide),
   ((getActiveRegionId_stored_or_none
      { init 50 1 with posToActiveRegionIdMap := (RangeMap.empty).set 42 7 } 43).2.1
        (by decide)).trans (by decide)⟩

/-- C8, as stated, fails: constructing a detector with `maxIndelSize = MaxBufferSize`
yields a detector, not a fatal error. -/
theorem construct_large_maxIndelSize_ok :
    ¬ (∀ maxIndelSize sampleCount : Nat, MaxBufferSize ≤ maxIndelSize →
        ∃ e, construct maxIndelSize sampleCount = Except.error e) := by
  intro h
  obtain ⟨e, he⟩ := h 1000 1 (by decide)
  simp [construct] at he

/-- C8, amended: the constructor checks nothing: for every `maxIndelSize` (at or above
`MaxBufferSize` too) and every `sampleCount` it yields a detector that stores
`maxIndelSize` as given and is in the initial tracker state. -/
theorem construct_always_ok (maxIndelSize sampleCount : Nat) :
    ∃ d, construct maxIndelSize sampleCount = Except.ok d ∧
      d.maxIndelSize = maxIndelSize ∧ d.sampleCount = sampleCount ∧
      d.isBeginning = true ∧ d.activeRegionStartPos = -1 ∧
      d.anchorPosFollowingPrevVariant = 1 ∧ d.prevAnchorPos = -1 ∧
      d.prevVariantPos = -1 ∧ d.numVariants = 0 :=
  ⟨init maxIndelSize sampleCount, rfl, rfl, rfl, rfl, rfl, rfl, rfl, rfl, rfl⟩

/-- C9: for every pair of constructor arguments the constructor succeeds and the aligner
of the detector carries match +1, mismatch -4, gap open -5, gap extend -1 and off-edge
-100 (the sixth argument repeats the gap-open score, the two flags are set). -/
theorem construct_aligner_scores (maxIndelSize sampleCount : Nat) :
    ∃ d, construct maxIndelSize sampleCount = Except.ok d ∧
      d.aligner.scores.matchScore = 1 ∧ d.aligner.scores.mismatchScore = -4 ∧
      d.aligner.scores.openScore = -5 ∧ d.aligner.scores.extendScore = -1 ∧
      d.aligner.scores.offEdgeScore = -100 ∧
      d.aligner.scores = ⟨1, -4, -5, -1, -100, -5, true, true⟩ :=
  ⟨init maxIndelSize sampleCount, rfl, rfl, rfl, rfl, rfl, rfl, rfl⟩

/-- C10: the decision thresholds are 13 bases between two variants, 2 variants per
region, and a buffer of 1000 bases. -/
theorem thresholds_values :
    MaxDistanceBetweenTwoVariants = 13 ∧ MinNumVariantsPerRegion = 2 ∧
    MaxBufferSize = 1000 :=
  ⟨rfl, rfl, rfl⟩

/-! ## Eviction and reset (modelled operations) -/

/-- C6: after `clearPosToActiveRegionMap(pos)` every position before `pos` has no entry
left (it is not among the retained keys) and is answered with the "none" sentinel; every
position at or after `pos` keeps the id it had; and a position evicted once stays
answered with "none" after any further eviction (`getActiveRegionId` is a function of the
state, so repeating the query cannot change the answer). -/
theorem clearPosToActiveRegionMap_evicts (s : ActiveRegionDetector) (pos p : Int) :
    (p < pos →
      (s.clearPosToActiveRegionMap pos).getActiveRegionId p = noActiveRegionId ∧
      p ∉ (s.clearPosToActiveRegionMap pos).posToActiveRegionIdMap.keys) ∧
    (pos ≤ p →
      (s.clearPosToActiveRegionMap pos).getActiveRegionId p = s.getActiveRegionId p) ∧
    (p < pos → ∀ pos2 : Int,
      ((s.clearPosToActiveRegionMap pos).clearPosToActiveRegionMap pos2).getActiveRegionId p
        = noActiveRegionId ∧
      ((s.clearPosToActiveRegionMap pos).clearPolySites pos2).getActiveRegionId p
        = noActiveRegionId ∧
      ((s.clearPosToActiveRegionMap pos).clearReadBuffer pos2).getActiveRegionId p
        = noActiveRegionId) := by
  have hnone : p < pos → (s.posToActiveRegionIdMap.eraseBefore pos).find? p = none := by
    intro h
    rw [RangeMap.find?_eraseBefore, if_neg (by omega)]
  refine ⟨fun h => ⟨?_, ?_⟩, fun h => ?_, fun h pos2 => ⟨?_, ?_, ?_⟩⟩
  · rw [getActiveRegionId_of_find?]
    simp only [clearPosToActiveRegionMap]
    rw [hnone h]; rfl
  · rw [← RangeMap.find?_eq_none_iff]
    exact hnone h
  · rw [getActiveRegionId_of_find?, getActiveRegionId_of_find?]
    simp only [clearPosToActiveRegionMap]
    rw [RangeMap.find?_eraseBefore, if_pos h]
  · rw [getActiveRegionId_of_find?]
    simp only [clearPosToActiveRegionMap]
    rw [RangeMap.find?_eraseBefore, hnone h]
    simp
  · rw [getActiveRegionId_of_find?]
    simp only [clearPosToActiveRegionMap, clearPolySites]
    rw [hnone h]; rfl
  · rw [getActiveRegionId_of_find?]
    simp only [clearPosToActiveRegionMap, clearReadBuffer]
    rw [hnone h]; rfl

/-- Witness for C6: an index holding id 0 on 100..108 is evicted at 104; position 103 is
gone and stays gone, position 105 keeps id 0. -/
theorem clearPosToActiveRegionMap_evicts_witness :
    (getActiveRegionId
        { init 50 1 with posToActiveRegionIdMap := (RangeMap.empty).setRange 100 9 0 } 103
      = 0) ∧
    (clearPosToActiveRegionMap
        { init 50 1 with posToActiveRegionIdMap := (RangeMap.empty).setRange 100 9 0 }
        104).getActiveRegionId 103 = noActiveRegionId ∧
    (clearPosToActiveRegionMap
        { init 50 1 with posToActiveRegionIdMap := (RangeMap.empty).setRange 100 9 0 }
        104).getActiveRegionId 105 = 0 :=
  ⟨by decide,
   ((clearPosToActiveRegionMap_evicts
      { init 50 1 with posToActiveRegionIdMap := (RangeMap.empty).setRange 100 9 0 }
      104 103).1 (by decide)).1,
   ((clearPosToActiveRegionMap_evicts
      { init 50 1 with posToActiveRegionIdMap := (RangeMap.empty).setRange 100 9 0 }
      104 105).2.1 (by decide)).trans (by decide)⟩

/-- C7: after `clear()` the detector is in the state the constructor establishes for the
same construction arguments: the six tracker members hold the constructor's values, the
list of active regions is empty, every polymorphic-site set is empty, the
position-to-region index has no key, and `getActiveRegionId` answers "none" everywhere. -/
theorem clear_resets (s : ActiveRegionDetector) :
    construct s.maxIndelSize s.sampleCount = Except.ok (clear s) ∧
    (clear s).isBeginning = true ∧ (clear s).activeRegionStartPos = -1 ∧
    (clear s).anchorPosFollowingPrevVariant = 1 ∧ (clear s).prevAnchorPos = -1 ∧
    (clear s).prevVariantPos = -1 ∧ (clear s).numVariants = 0 ∧
    (clear s).activeRegions = [] ∧
    (∀ sites ∈ (clear s).polySites.sets, sites = []) ∧
    (clear s).posToActiveRegionIdMap.keys = ∅ ∧
    (∀ pos : Int, (clear s).getActiveRegionId pos = noActiveRegionId) := by
  refine ⟨rfl, rfl, rfl, rfl, rfl, rfl, rfl, rfl, ?_, rfl, ?_⟩
  · intro sites h
    simp only [clear, init, RangeSet.init] at h
    exact (List.mem_replicate.1 h).2
  · intro pos
    rw [getActiveRegionId_of_find?]
    rfl

/-! ## The claims about the Region Boundary Tracker (modelled operations) -/

set_option maxRecDepth 1000000

/-- C4: after every sequence of `updateEndPosition` calls on a constructed detector that
does not end in a fatal error (so the positions were non-decreasing), no two different
materialized regions share a reference position; for any two regions the order of the ids
is the order of the start positions; and the regions, in creation order, carry the ids
0, 1, 2, ... and strictly ascending start positions. -/
theorem regions_disjoint_ids_ordered (isVar : Int → Bool) (calls : List Int)
    (maxIndelSize sampleCount : Nat) (s : ActiveRegionDetector)
    (hrun : updateEndPositions isVar calls (init maxIndelSize sampleCount) = Except.ok s) :
    (∀ r1 ∈ s.activeRegions, ∀ r2 ∈ s.activeRegions, r1 ≠ r2 →
      ∀ x, ¬ (r1.covers x ∧ r2.covers x)) ∧
    (∀ r1 ∈ s.activeRegions, ∀ r2 ∈ s.activeRegions,
      (r1.id < r2.id ↔ r1.startPos < r2.startPos)) ∧
    s.activeRegions.map (fun r => r.id) = List.range s.activeRegions.length ∧
    s.activeRegions.Pairwise (fun a b => a.startPos < b.startPos) := by
  obtain ⟨p0, h, hI⟩ := updateEndPositions_inv hrun
  have htri := regions_trichotomy hI
  have hse : ∀ r ∈ s.activeRegions, r.startPos ≤ r.endPos := fun r hr => (hI.r_each r hr).1
  refine ⟨?_, ?_, ?_, ?_⟩
  · intro r1 h1 r2 h2 hne x hx
    obtain ⟨⟨a1, a2⟩, ⟨b1, b2⟩⟩ := hx
    rcases htri r1 h1 r2 h2 with h3 | h3 | h3
    · exact hne h3
    · omega
    · omega
  · intro r1 h1 r2 h2
    have e1 := hse r1 h1
    have e2 := hse r2 h2
    rcases htri r1 h1 r2 h2 with h3 | h3 | h3
    · rw [h3]; simp
    · constructor
      · intro _; omega
      · intro _; exact h3.2
    · constructor
      · intro h4; omega
      · intro h4; omega
  · have hlen : s.activeRegions.length = s.nextActiveRegionId := by
      have := congrArg List.length hI.r_ids
      simpa using this
    rw [hlen]
    exact hI.r_ids
  · have hp : ∀ a ∈ s.activeRegions, ∀ b ∈ s.activeRegions,
        (a.endPos < b.startPos ∧ a.id < b.id) → a.startPos < b.startPos := by
      intro a ha b _ hab
      have := hse a ha
      omega
    exact hI.r_pair.imp_of_mem (fun ha hb hab => hp _ ha _ hb hab)

/-- Witness for C4: variants at 100, 105, 119, 125, 150, 170, 183 and 200, scanned from 99
to 200, give three regions, which the theorem orders and separates. -/
theorem regions_disjoint_ids_ordered_witness :
    updateEndPositions (evidenceAt [100, 105, 119, 125, 150, 170, 183, 200]) [99, 140, 200]
        (init 50 1)
      = Except.ok (scanFrom (evidenceAt [100, 105, 119, 125, 150, 170, 183, 200])
          [99, 140, 200]) ∧
    (scanFrom (evidenceAt [100, 105, 119, 125, 150, 170, 183, 200])
      [99, 140, 200]).activeRegions = [⟨0, 100, 105⟩, ⟨1, 106, 125⟩, ⟨2, 151, 183⟩] ∧
    (∀ r1 ∈ (scanFrom (evidenceAt [100, 105, 119, 125, 150, 170, 183, 200])
        [99, 140, 200]).activeRegions,
      ∀ r2 ∈ (scanFrom (evidenceAt [100, 105, 119, 125, 150, 170, 183, 200])
        [99, 140, 200]).activeRegions,
      r1 ≠ r2 → ∀ x, ¬ (r1.covers x ∧ r2.covers x)) :=
  ⟨by decide, by decide,
   (regions_disjoint_ids_ordered (evidenceAt [100, 105, 119, 125, 150, 170, 183, 200])
      [99, 140, 200] 50 1 _ (by decide)).1⟩

/-- C3: let `p < q` be consecutive confirmed variant positions, both processed by
`updateEndPosition` calls on a constructed detector.  If `q - p` exceeds
`MaxDistanceBetweenTwoVariants` (so in particular if it is 14), no region covers both: a
region covering `p` ends at `p`, a region covering `q` starts after `p`, and the open run
starts after `p`.  If `q - p` is at most `MaxDistanceBetweenTwoVariants` (so in particular
if it is 13), `q` extended the run of `p`: either that run is still the open run, holds
both and has the count the threshold asks for, or, the run having been closed (the moment
the count threshold is checked), one region covers both. -/
theorem distance_boundary (isVar : Int → Bool) (p0 : Int) (rest : List Int)
    (maxIndelSize sampleCount : Nat) (s : ActiveRegionDetector) (p q : Int)
    (hrun : updateEndPositions isVar (p0 :: rest) (init maxIndelSize sampleCount)
      = Except.ok s)
    (hp : isVar p = true) (hq : isVar q = true) (hpq : p < q)
    (hcons : ∀ x, p < x → x < q → isVar x = false)
    (hp0 : p0 ≤ p) (hseen : ∃ h, s.lastSeenPos = some h ∧ q ≤ h) :
    ((MaxDistanceBetweenTwoVariants : Int) < q - p →
      (∀ r ∈ s.activeRegions, ¬ (r.covers p ∧ r.covers q)) ∧
      (∀ r ∈ s.activeRegions, r.covers p → r.endPos = p) ∧
      (∀ r ∈ s.activeRegions, r.covers q → p < r.startPos) ∧
      p < s.activeRegionStartPos ∧ q ≤ s.prevVariantPos) ∧
    (q - p ≤ (MaxDistanceBetweenTwoVariants : Int) →
      ((s.activeRegionStartPos ≤ p ∧ q ≤ s.prevVariantPos ∧
          MinNumVariantsPerRegion ≤ s.numVariants) ∨
        (∃ r ∈ s.activeRegions, r.covers p ∧ r.covers q)) ∧
      (q < s.activeRegionStartPos → ∃ r ∈ s.activeRegions, r.covers p ∧ r.covers q)) := by
  obtain ⟨h, -, ⟨hl, -, hI⟩, -⟩ := updateEndPositions_init hrun
  obtain ⟨h1, hl1, hqh⟩ := hseen
  rw [hl] at hl1
  have hh : h1 = h := (Option.some.inj hl1).symm
  subst hh
  have hM : (MaxDistanceBetweenTwoVariants : Int) = 13 := rfl
  rw [hM]
  have hb : s.isBeginning = false := by
    cases hb : s.isBeginning with
    | false => rfl
    | true =>
      have := hI.b_novar hb q (by omega) hqh
      rw [this] at hq
      exact absurd hq (by simp)
  have hqprev : q ≤ s.prevVariantPos := by
    by_contra hc
    have := hI.n_after hb q (by omega) hqh
    rw [this] at hq
    exact absurd hq (by simp)
  have hnonext : 13 < q - p → ∀ x, isVar x = true → p < x → x ≤ p + 13 → False := by
    intro hg x hx h1 h2
    have := hcons x h1 (by omega)
    rw [this] at hx
    exact absurd hx (by simp)
  constructor
  · intro hg
    have hend : ∀ r ∈ s.activeRegions, r.covers p → r.endPos = p :=
      fun r hr hc => region_end_of_no_next hI hr hp hc.1 hc.2 (hnonext hg)
    refine ⟨?_, hend, ?_, ?_, hqprev⟩
    · intro r hr hc
      have := hend r hr hc.1
      have := hc.2.2
      omega
    · intro r hr hc
      by_contra hle
      have := hend r hr ⟨by omega, by have := hc.2; omega⟩
      have := hc.2
      omega
    · by_contra hle
      obtain ⟨w, hw1, hw2, hw3, -⟩ := hI.n_chain hb p hp (by omega) (by omega)
      exact hnonext hg w hw1 hw2 hw3
  · intro hg
    rcases hI.cover p q hp hq hp0 hpq hqh (by omega) with ⟨_, h2, h3⟩ | ⟨r, hr, h2, h3⟩
    · refine ⟨Or.inl ⟨h2, h3, ?_⟩, fun hlt => by omega⟩
      show 2 ≤ s.numVariants
      by_contra hc
      have h1 : s.numVariants = 1 := by
        have := hI.n_count hb
        omega
      have := hI.n_one hb h1 p h2 (by omega)
      rw [this] at hp
      exact absurd hp (by simp)
    · have := (hI.r_each r hr).1
      exact ⟨Or.inr ⟨r, hr, ⟨h2, by omega⟩, ⟨by omega, h3⟩⟩,
        fun _ => ⟨r, hr, ⟨h2, by omega⟩, ⟨by omega, h3⟩⟩⟩
theorem evidenceAt_eq_false (variants : List Int) (x : Int) :
    evidenceAt variants x = false ↔ x ∉ variants := by
  simp [evidenceAt]

/-- Witness for C3: variants at 100, 113, 127, 140 and 200 scanned from 99 to 200.  113
and 127 are 14 apart and no region covers both; 100 and 113 are 13 apart and one region
covers both. -/
theorem distance_boundary_witness :
    updateEndPositions (evidenceAt [100, 113, 127, 140, 200]) [99, 200] (init 50 1)
      = Except.ok (scanFrom (evidenceAt [100, 113, 127, 140, 200]) [99, 200]) ∧
    (scanFrom (evidenceAt [100, 113, 127, 140, 200]) [99, 200]).activeRegions
      = [⟨0, 100, 113⟩, ⟨1, 114, 140⟩] ∧
    (∀ r ∈ (scanFrom (evidenceAt [100, 113, 127, 140, 200]) [99, 200]).activeRegions,
      ¬ (r.covers 113 ∧ r.covers 127)) ∧
    (∃ r ∈ (scanFrom (evidenceAt [100, 113, 127, 140, 200]) [99, 200]).activeRegions,
      r.covers 100 ∧ r.covers 113) :=
  ⟨by decide, by decide,
   ((distance_boundary (evidenceAt [100, 113, 127, 140, 200]) 99 [200] 50 1 _ 113 127
      (by decide) (by decide) (by decide) (by decide)
      (fun x h1 h2 => by
        rw [evidenceAt_eq_false]
        simp only [List.mem_cons, List.mem_singleton, List.not_mem_nil, or_false]
        omega)
      (by decide) ⟨200, by decide, by decide⟩).1 (by decide)).1,
   ((distance_boundary (evidenceAt [100, 113, 127, 140, 200]) 99 [200] 50 1 _ 100 113
      (by decide) (by decide) (by decide) (by decide)
      (fun x h1 h2 => by
        rw [evidenceAt_eq_false]
        simp only [List.mem_cons, List.mem_singleton, List.not_mem_nil, or_false]
        omega)
      (by decide) ⟨200, by decide, by decide⟩).2 (by decide)).2 (by decide)⟩

end ActiveRegionDetector

end Strelka
